import Mathlib

/-!
Verification of the `UniversalTime` value type (src/UniversalTime_jake.hh).

The class stores a time since the SNO+ epoch as three components:
`days : Int_t`, `seconds : Int_t`, `nanoSeconds : Double_t`.  We embed
`Int_t` as `Int` and `Double_t` as `Rat` (the exact idealisation of the
double arithmetic used by the code: every operation performed on
`nanoSeconds` — addition and subtraction of `1.0e9`, division by
`1.0e9`/`86400.0`, and a `static_cast<int>` truncation toward zero — is
exact rational arithmetic on the inputs considered).
-/

namespace UT

/-- The `UniversalTime` class state: `days`, `seconds`, `nanoSeconds`
(src/UniversalTime_jake.hh lines 130-132). -/
structure UniversalTime where
  days : Int
  seconds : Int
  nanoSeconds : Rat
  deriving DecidableEq, Repr

/-- `static_cast<int>` applied to a double value: truncation toward zero. -/
def truncQ (x : Rat) : Int := if x < 0 then ⌈x⌉ else ⌊x⌋

/-- `UniversalTime::TimeOrder` (lines 196-203): `false` when the triple is
lexicographically negative (days first, then seconds, then nanoSeconds when
the higher components are zero), `true` otherwise. -/
def TimeOrder (t : UniversalTime) : Bool :=
  if t.days < 0 then false
  else if t.days = 0 ∧ t.seconds < 0 then false
  else if t.days = 0 ∧ t.seconds = 0 ∧ t.nanoSeconds < 0 then false
  else true

/-- `UniversalTime::IsNegative` (lines 189-194): any component negative.
(Only referenced from commented-out code in `Normalise`.) -/
def IsNegative (t : UniversalTime) : Bool :=
  if t.days < 0 ∨ t.seconds < 0 ∨ t.nanoSeconds < 0 then true else false

/-- The `TimeOrder()`-true block of `Normalise` (lines 225-242): a negative
`nanoSeconds` borrows one second, then a negative `seconds` borrows one day. -/
def phasePos (t : UniversalTime) : UniversalTime :=
  let a := if t.nanoSeconds < 0 then
      ⟨t.days, t.seconds - 1, t.nanoSeconds + 1000000000⟩ else t
  if a.seconds < 0 then ⟨a.days - 1, a.seconds + 86400, a.nanoSeconds⟩ else a

/-- The `!TimeOrder()` block of `Normalise` (lines 244-260): a positive
`nanoSeconds` is folded into seconds, then a positive `seconds` into days. -/
def phaseNeg (t : UniversalTime) : UniversalTime :=
  let a := if t.nanoSeconds > 0 then
      ⟨t.days, t.seconds + 1, t.nanoSeconds - 1000000000⟩ else t
  if a.seconds > 0 then ⟨a.days + 1, a.seconds - 86400, a.nanoSeconds⟩ else a

/-- The carry step of `Normalise` (lines 272-277):
`overflowSeconds = static_cast<int>(nanoSeconds / 1.0e9)` is added to
`seconds` and removed from `nanoSeconds`; then
`overflowDays = static_cast<int>(seconds / 86400.0)` is added to `days`
and removed from `seconds`.  The casts truncate toward zero. -/
def carry (t : UniversalTime) : UniversalTime :=
  let overflowSeconds : Int := truncQ (t.nanoSeconds / 1000000000)
  let s1 : Int := t.seconds + overflowSeconds
  let n1 : Rat := t.nanoSeconds - overflowSeconds * 1000000000
  let overflowDays : Int := truncQ ((s1 : Rat) / 86400)
  ⟨t.days + overflowDays, s1 - overflowDays * 86400, n1⟩

/-- `UniversalTime::Normalise` (lines 206-289).  Note the two sign blocks are
guarded by two separate calls to `TimeOrder()`: the second call observes the
state as mutated by the first block. -/
def Normalise (t : UniversalTime) : UniversalTime :=
  let t1 := if TimeOrder t then phasePos t else t
  let t2 := if !(TimeOrder t1) then phaseNeg t1 else t1
  carry t2

/-- The constructor `UniversalTime(days_, seconds_, nanoSeconds_)`
(lines 135-140): stores the raw components and calls `Normalise`. -/
def make (days_ seconds_ : Int) (nanoSeconds_ : Rat) : UniversalTime :=
  Normalise ⟨days_, seconds_, nanoSeconds_⟩

/-- `operator+=` (lines 160-168): component-wise sum, then `Normalise`;
returns the new state of `*this`. -/
def addAssign (a rhs : UniversalTime) : UniversalTime :=
  Normalise ⟨a.days + rhs.days, a.seconds + rhs.seconds,
             a.nanoSeconds + rhs.nanoSeconds⟩

/-- `operator-=` (lines 170-178): component-wise difference, then `Normalise`;
returns the new state of `*this`. -/
def subAssign (a rhs : UniversalTime) : UniversalTime :=
  Normalise ⟨a.days - rhs.days, a.seconds - rhs.seconds,
             a.nanoSeconds - rhs.nanoSeconds⟩

/-- The value returned by `operator+` (line 68): `UniversalTime(*this) += rhs`,
i.e. `+=` applied to a copy of `*this`. -/
def add (a rhs : UniversalTime) : UniversalTime := addAssign a rhs

/-- The value returned by the binary subtraction operator, spelled
`operator--` in the source (line 80): `UniversalTime(*this) -= rhs`. -/
def sub (a rhs : UniversalTime) : UniversalTime := subAssign a rhs

/-- `operator+` (line 68) with the mutation discipline made explicit: the
`const` member copies `*this` into a temporary, applies `+=` to the
temporary, and returns it; the post-call states of `*this` and `rhs` are the
second and third components. -/
def opPlus (a rhs : UniversalTime) :
    UniversalTime × UniversalTime × UniversalTime :=
  let tmp := a
  (addAssign tmp rhs, a, rhs)

/-- `operator--` (line 80) with the mutation discipline made explicit, as in
`opPlus`: only the temporary copy of `*this` is mutated. -/
def opMinusMinus (a rhs : UniversalTime) :
    UniversalTime × UniversalTime × UniversalTime :=
  let tmp := a
  (subAssign tmp rhs, a, rhs)

/-- `operator==` (line 86): all three components equal. -/
def eqOp (a rhs : UniversalTime) : Bool :=
  decide (a.days = rhs.days) && decide (a.seconds = rhs.seconds) &&
    decide (a.nanoSeconds = rhs.nanoSeconds)

/-- `operator!=` (line 92): `!(*this == rhs)`. -/
def neOp (a rhs : UniversalTime) : Bool := !(eqOp a rhs)

/-- `operator<` (lines 180-187). -/
def lt (a rhs : UniversalTime) : Bool :=
  if a.days > rhs.days then false
  else if a.days = rhs.days ∧ a.seconds > rhs.seconds then false
  else if a.days = rhs.days ∧ a.seconds = rhs.seconds ∧
      a.nanoSeconds ≥ rhs.nanoSeconds then false
  else true

/-- `operator<=` (line 104): `*this < rhs || *this == rhs`. -/
def le (a rhs : UniversalTime) : Bool := lt a rhs || eqOp a rhs

/-- `operator>` (line 110): `!(*this <= rhs)`. -/
def gt (a rhs : UniversalTime) : Bool := !(le a rhs)

/-- `operator>=` (line 116): `*this > rhs || *this == rhs`. -/
def ge (a rhs : UniversalTime) : Bool := gt a rhs || eqOp a rhs

/-- The real-valued instant denoted by a component triple, in seconds:
`days*86400 + seconds + nanoSeconds*1e-9`. -/
def value (t : UniversalTime) : Rat :=
  86400 * (t.days : Rat) + (t.seconds : Rat) + t.nanoSeconds / 1000000000

/-- The canonical-form invariant claimed by the spec:
`0 ≤ seconds < 86400` and `0 ≤ nanoseconds < 1e9`. -/
def Canonical (t : UniversalTime) : Prop :=
  0 ≤ t.seconds ∧ t.seconds < 86400 ∧
    0 ≤ t.nanoSeconds ∧ t.nanoSeconds < 1000000000

instance (t : UniversalTime) : Decidable (Canonical t) := by
  unfold Canonical; exact inferInstance

/-! ### The spec's normalization algorithm (section 4.1)

For the refinement claim the spec's four-step algorithm is formalised
separately, following the spec's words. -/

/-- Spec step 1: "Determine overall sign orientation of the triple using a
lexicographic ordering test (is this triple ≥ zero, comparing days first,
then seconds, then nanoseconds only when the higher components are zero)." -/
def lexNonNeg (t : UniversalTime) : Bool :=
  decide (0 < t.days ∨ (t.days = 0 ∧ 0 < t.seconds) ∨
    (t.days = 0 ∧ t.seconds = 0 ∧ 0 ≤ t.nanoSeconds))

/-- Spec step 2: "any negative nanoseconds borrows 1 whole second (subtract 1
from seconds, add 1e9 to nanoseconds); any resulting negative seconds borrows
1 whole day (subtract 1 from days, add 86400 to seconds)." -/
def specBorrow (t : UniversalTime) : UniversalTime :=
  let a := if t.nanoSeconds < 0 then
      ⟨t.days, t.seconds - 1, t.nanoSeconds + 1000000000⟩ else t
  if a.seconds < 0 then ⟨a.days - 1, a.seconds + 86400, a.nanoSeconds⟩ else a

/-- Spec step 3: "any positive nanoseconds is folded the opposite way (add 1
to seconds, subtract 1e9 from nanoseconds); any resulting positive seconds is
folded into days (add 1 to days, subtract 86400 from seconds)." -/
def specFold (t : UniversalTime) : UniversalTime :=
  let a := if 0 < t.nanoSeconds then
      ⟨t.days, t.seconds + 1, t.nanoSeconds - 1000000000⟩ else t
  if 0 < a.seconds then ⟨a.days + 1, a.seconds - 86400, a.nanoSeconds⟩ else a

/-- Spec step 4: "compute the integer quotient of nanoseconds / 1e9
(truncating toward zero) as the seconds overflow; add it to seconds and
subtract the corresponding nanosecond amount.  Compute the integer quotient
of seconds / 86400 (truncating toward zero) as the days overflow; add it to
days and subtract the corresponding seconds amount." -/
def specCarry (t : UniversalTime) : UniversalTime :=
  let secOverflow : Int := truncQ (t.nanoSeconds / 1000000000)
  let s1 : Int := t.seconds + secOverflow
  let n1 : Rat := t.nanoSeconds - secOverflow * 1000000000
  let dayOverflow : Int := truncQ ((s1 : Rat) / 86400)
  ⟨t.days + dayOverflow, s1 - dayOverflow * 86400, n1⟩

/-- The spec's four-step normalization as written: one lexicographic sign
test fixes the direction for the whole sign-reconciliation phase. -/
def specNormalise (t : UniversalTime) : UniversalTime :=
  specCarry (if lexNonNeg t then specBorrow t else specFold t)

/-- The spec's algorithm amended so that, as in the code, the sign test is
re-evaluated after the non-negative borrow phase, and the fold phase runs
whenever the (possibly already mutated) triple is negative under the
re-evaluated test. -/
def specNormaliseRetest (t : UniversalTime) : UniversalTime :=
  let u := if lexNonNeg t then specBorrow t else t
  specCarry (if lexNonNeg u then u else specFold u)

/-! ### Basic lemmas -/

/-- Rewriting `Int.ceil` through `Int.floor`, used to evaluate `truncQ` on
concrete rationals. -/
lemma ceil_eq_neg_floor (x : Rat) : ⌈x⌉ = -⌊-x⌋ := by
  rw [Int.floor_neg, neg_neg]

/-- The spec's lexicographic sign test agrees with the code's `TimeOrder`. -/
lemma lexNonNeg_eq_timeOrder (t : UniversalTime) : lexNonNeg t = TimeOrder t := by
  unfold lexNonNeg TimeOrder
  rcases t with ⟨d, s, n⟩
  dsimp only
  split_ifs with h1 h2 h3
  · simp only [decide_eq_false_iff_not]
    rintro (h | ⟨he, _⟩ | ⟨he, _, _⟩) <;> omega
  · simp only [decide_eq_false_iff_not]
    rintro (h | ⟨he, hs⟩ | ⟨he, hs, _⟩) <;> omega
  · simp only [decide_eq_false_iff_not]
    rintro (h | ⟨he, hs⟩ | ⟨he, hs, hn⟩)
    · omega
    · omega
    · exact absurd hn (not_le.mpr h3.2.2)
  · simp only [decide_eq_true_eq]
    push_neg at h2 h3
    rcases lt_trichotomy d 0 with hd | hd | hd
    · exact absurd hd h1
    · subst hd
      rcases lt_trichotomy s 0 with hs | hs | hs
      · exact absurd hs (not_lt.mpr (h2 rfl))
      · subst hs
        exact Or.inr (Or.inr ⟨rfl, rfl, h3 rfl rfl⟩)
      · exact Or.inr (Or.inl ⟨rfl, hs⟩)
    · exact Or.inl hd

/-- The spec's borrow phase is the code's `TimeOrder`-true block. -/
lemma specBorrow_eq_phasePos : specBorrow = phasePos := rfl

/-- The spec's fold phase is the code's `!TimeOrder` block. -/
lemma specFold_eq_phaseNeg : specFold = phaseNeg := rfl

/-- The spec's carry step is the code's carry step. -/
lemma specCarry_eq_carry : specCarry = carry := rfl

/-- `Normalise` is the retest variant of the spec's algorithm: the pieces are
the same, but the fold phase is gated by a second evaluation of the sign
test on the mutated triple. -/
lemma normalise_eq_specNormaliseRetest (t : UniversalTime) :
    Normalise t = specNormaliseRetest t := by
  unfold Normalise specNormaliseRetest
  simp only [lexNonNeg_eq_timeOrder, specBorrow_eq_phasePos,
    specFold_eq_phaseNeg, specCarry_eq_carry]
  cases h : TimeOrder (if TimeOrder t then phasePos t else t) <;> simp [h]

/-! ### Bounds for the truncating casts -/

/-- For `0 ≤ x` the truncating cast of `x / E` is the floor. -/
lemma truncQ_of_nonneg (x E : Rat) (hE : 0 < E) (hx : 0 ≤ x) :
    truncQ (x / E) = ⌊x / E⌋ := by
  unfold truncQ
  rw [if_neg (not_lt.mpr (div_nonneg hx hE.le))]

lemma truncQ_div_nonneg (x E : Rat) (hE : 0 < E) (hx : 0 ≤ x) :
    0 ≤ truncQ (x / E) := by
  rw [truncQ_of_nonneg x E hE hx]
  exact Int.floor_nonneg.mpr (div_nonneg hx hE.le)

/-- Remainder bounds for a non-negative numerator. -/
lemma truncQ_rem_of_nonneg (x E : Rat) (hE : 0 < E) (hx : 0 ≤ x) :
    0 ≤ x - truncQ (x / E) * E ∧ x - truncQ (x / E) * E < E := by
  rw [truncQ_of_nonneg x E hE hx]
  have hne : E ≠ 0 := ne_of_gt hE
  constructor
  · have h1 : ((⌊x / E⌋ : Rat)) ≤ x / E := Int.floor_le _
    have h2 := (mul_le_mul_right hE).mpr h1
    rw [div_mul_cancel₀ _ hne] at h2
    linarith
  · have h1 : x / E < (⌊x / E⌋ : Rat) + 1 := Int.lt_floor_add_one _
    have h2 := (mul_lt_mul_right hE).mpr h1
    rw [div_mul_cancel₀ _ hne] at h2
    have h3 : ((⌊x / E⌋ : Rat) + 1) * E = (⌊x / E⌋ : Rat) * E + E := by ring
    linarith

/-- Remainder bounds for a negative numerator. -/
lemma truncQ_rem_of_neg (x E : Rat) (hE : 0 < E) (hx : x < 0) :
    -E < x - truncQ (x / E) * E ∧ x - truncQ (x / E) * E ≤ 0 := by
  have hdiv : x / E < 0 := div_neg_of_neg_of_pos hx hE
  have hne : E ≠ 0 := ne_of_gt hE
  unfold truncQ
  rw [if_pos hdiv]
  constructor
  · have h1 : ((⌈x / E⌉ : Rat)) < x / E + 1 := Int.ceil_lt_add_one _
    have h2 := (mul_lt_mul_right hE).mpr h1
    rw [add_mul, div_mul_cancel₀ _ hne] at h2
    linarith
  · have h1 : x / E ≤ ((⌈x / E⌉ : Rat)) := Int.le_ceil _
    have h2 := (mul_le_mul_right hE).mpr h1
    rw [div_mul_cancel₀ _ hne] at h2
    linarith

/-- Remainder bounds, any sign. -/
lemma truncQ_rem_bounds (x E : Rat) (hE : 0 < E) :
    -E < x - truncQ (x / E) * E ∧ x - truncQ (x / E) * E < E := by
  rcases lt_or_le x 0 with hx | hx
  · have h := truncQ_rem_of_neg x E hE hx
    exact ⟨h.1, lt_of_le_of_lt h.2 hE⟩
  · have h := truncQ_rem_of_nonneg x E hE hx
    exact ⟨lt_of_lt_of_le (neg_neg_of_pos hE) h.1, h.2⟩

/-- The truncating cast of `x / E` vanishes when `0 ≤ x < E`. -/
lemma truncQ_eq_zero (x E : Rat) (hE : 0 < E) (hx : 0 ≤ x) (hxE : x < E) :
    truncQ (x / E) = 0 := by
  rw [truncQ_of_nonneg x E hE hx]
  rw [Int.floor_eq_zero_iff]
  exact ⟨div_nonneg hx hE.le, (div_lt_one hE).mpr hxE⟩

/-! ### Value preservation -/

lemma value_phasePos (t : UniversalTime) : value (phasePos t) = value t := by
  rcases t with ⟨d, s, n⟩
  unfold phasePos value
  dsimp only
  split_ifs <;> dsimp only <;> push_cast <;> field_simp <;> ring

lemma value_phaseNeg (t : UniversalTime) : value (phaseNeg t) = value t := by
  rcases t with ⟨d, s, n⟩
  unfold phaseNeg value
  dsimp only
  split_ifs <;> dsimp only <;> push_cast <;> field_simp <;> ring

lemma value_carry (t : UniversalTime) : value (carry t) = value t := by
  rcases t with ⟨d, s, n⟩
  unfold carry value
  dsimp only
  push_cast
  field_simp
  ring

/-- The code's normalization preserves the denoted instant exactly. -/
lemma value_normalise (t : UniversalTime) : value (Normalise t) = value t := by
  unfold Normalise
  cases h1 : TimeOrder t <;> cases h2 : TimeOrder (phasePos t) <;>
    simp [h1, h2, value_carry, value_phasePos, value_phaseNeg]

/-! ### Canonicity on non-negative inputs, fixed points, magnitude bounds -/

lemma timeOrder_of_nonneg (t : UniversalTime) (hd : 0 ≤ t.days)
    (hs : 0 ≤ t.seconds) (hn : 0 ≤ t.nanoSeconds) : TimeOrder t = true := by
  unfold TimeOrder
  split_ifs with h1 h2 h3
  · omega
  · omega
  · exact absurd h3.2.2 (not_lt.mpr hn)
  · rfl

lemma phasePos_of_nonneg (t : UniversalTime) (hs : 0 ≤ t.seconds)
    (hn : 0 ≤ t.nanoSeconds) : phasePos t = t := by
  unfold phasePos
  rw [if_neg (not_lt.mpr hn)]
  dsimp only
  rw [if_neg (not_lt.mpr hs)]

lemma carry_canonical_of_nonneg (t : UniversalTime) (hd : 0 ≤ t.days)
    (hs : 0 ≤ t.seconds) (hn : 0 ≤ t.nanoSeconds) :
    Canonical (carry t) ∧ 0 ≤ (carry t).days := by
  rcases t with ⟨d, s, n⟩
  have hE9 : (0 : Rat) < 1000000000 := by norm_num
  have hE4 : (0 : Rat) < 86400 := by norm_num
  simp only at hd hs hn
  have hq1 : 0 ≤ truncQ (n / 1000000000) := truncQ_div_nonneg n _ hE9 hn
  have hrem1 := truncQ_rem_of_nonneg n 1000000000 hE9 hn
  have hs1 : 0 ≤ s + truncQ (n / 1000000000) := by omega
  have hs1Q : (0 : Rat) ≤ ((s + truncQ (n / 1000000000) : Int) : Rat) := by
    exact_mod_cast hs1
  have hq2 : 0 ≤ truncQ (((s + truncQ (n / 1000000000) : Int) : Rat) / 86400) :=
    truncQ_div_nonneg _ _ hE4 hs1Q
  have hrem2 := truncQ_rem_of_nonneg ((s + truncQ (n / 1000000000) : Int) : Rat)
    86400 hE4 hs1Q
  unfold carry Canonical
  dsimp only
  refine ⟨⟨?_, ?_, hrem1.1, hrem1.2⟩, by omega⟩
  · have := hrem2.1
    push_cast at this ⊢
    exact_mod_cast this
  · have := hrem2.2
    push_cast at this ⊢
    exact_mod_cast this

/-- On an all-non-negative triple both sign blocks are skipped and
`Normalise` is just the carry step. -/
lemma normalise_eq_carry_of_nonneg (t : UniversalTime) (hd : 0 ≤ t.days)
    (hs : 0 ≤ t.seconds) (hn : 0 ≤ t.nanoSeconds) : Normalise t = carry t := by
  unfold Normalise
  simp [timeOrder_of_nonneg t hd hs hn, phasePos_of_nonneg t hs hn]

/-- On an all-non-negative input triple, `Normalise` yields a canonical
triple with non-negative days. -/
lemma normalise_canonical_of_nonneg (t : UniversalTime) (hd : 0 ≤ t.days)
    (hs : 0 ≤ t.seconds) (hn : 0 ≤ t.nanoSeconds) :
    Canonical (Normalise t) ∧ 0 ≤ (Normalise t).days := by
  rw [normalise_eq_carry_of_nonneg t hd hs hn]
  exact carry_canonical_of_nonneg t hd hs hn

/-- `carry` fixes triples whose seconds and nanoseconds are already in
canonical range. -/
lemma carry_of_canonical (t : UniversalTime) (hc : Canonical t) :
    carry t = t := by
  rcases t with ⟨d, s, n⟩
  obtain ⟨hs0, hs1, hn0, hn1⟩ := hc
  have hq1 : truncQ (n / 1000000000) = 0 :=
    truncQ_eq_zero n 1000000000 (by norm_num) hn0 hn1
  unfold carry
  dsimp only at hq1 ⊢
  rw [hq1]
  have hsimp : s + (0 : Int) = s := by ring
  rw [hsimp]
  have hq2 : truncQ ((s : Rat) / 86400) = 0 := by
    refine truncQ_eq_zero _ _ (by norm_num) (by exact_mod_cast hs0) ?_
    exact_mod_cast hs1
  rw [hq2]
  simp

/-- `Normalise` fixes canonical triples with non-negative days. -/
lemma normalise_of_canonical (t : UniversalTime) (hd : 0 ≤ t.days)
    (hc : Canonical t) : Normalise t = t := by
  rw [normalise_eq_carry_of_nonneg t hd hc.1 hc.2.2.1]
  exact carry_of_canonical t hc

/-- Unconditionally, `carry` leaves `|seconds| < 86400` and
`|nanoSeconds| < 1e9`. -/
lemma carry_bounds (t : UniversalTime) :
    -86400 < (carry t).seconds ∧ (carry t).seconds < 86400 ∧
      -1000000000 < (carry t).nanoSeconds ∧ (carry t).nanoSeconds < 1000000000 := by
  rcases t with ⟨d, s, n⟩
  have h1 := truncQ_rem_bounds n 1000000000 (by norm_num)
  have h2 := truncQ_rem_bounds ((s + truncQ (n / 1000000000) : Int) : Rat) 86400
    (by norm_num)
  unfold carry
  dsimp only
  refine ⟨?_, ?_, h1.1, h1.2⟩
  · have := h2.1
    push_cast at this ⊢
    exact_mod_cast this
  · have := h2.2
    push_cast at this ⊢
    exact_mod_cast this

/-- Unconditionally, `Normalise` yields `|seconds| < 86400` and
`|nanoSeconds| < 1e9` (but not necessarily the non-negative canonical form). -/
lemma normalise_bounds (t : UniversalTime) :
    -86400 < (Normalise t).seconds ∧ (Normalise t).seconds < 86400 ∧
      -1000000000 < (Normalise t).nanoSeconds ∧
        (Normalise t).nanoSeconds < 1000000000 := by
  unfold Normalise
  exact carry_bounds _

/-! ### The comparison operators -/

/-- Strict lexicographic order on component triples: days first, then
seconds, then nanoseconds, each lower tier consulted only when the higher
tiers are equal. -/
def LtLex (a b : UniversalTime) : Prop :=
  a.days < b.days ∨ (a.days = b.days ∧ a.seconds < b.seconds) ∨
    (a.days = b.days ∧ a.seconds = b.seconds ∧ a.nanoSeconds < b.nanoSeconds)

/-- `operator<` decides exactly the lexicographic strict order. -/
lemma lt_eq_true_iff (a b : UniversalTime) : lt a b = true ↔ LtLex a b := by
  unfold lt LtLex
  split_ifs with h1 h2 h3
  · simp only [Bool.false_eq_true, false_iff]
    rintro (h | ⟨he, _⟩ | ⟨he, _, _⟩) <;> omega
  · simp only [Bool.false_eq_true, false_iff]
    rintro (h | ⟨he, hs⟩ | ⟨he, hs, _⟩) <;> omega
  · simp only [Bool.false_eq_true, false_iff]
    rintro (h | ⟨he, hs⟩ | ⟨he, hs, hn⟩)
    · omega
    · omega
    · exact absurd hn (not_lt.mpr h3.2.2)
  · simp only [true_iff]
    push_neg at h1 h2 h3
    rcases lt_trichotomy a.days b.days with hd | hd | hd
    · exact Or.inl hd
    · rcases lt_trichotomy a.seconds b.seconds with hs | hs | hs
      · exact Or.inr (Or.inl ⟨hd, hs⟩)
      · exact Or.inr (Or.inr ⟨hd, hs, h3 hd hs⟩)
      · exact absurd hs (not_lt.mpr (h2 hd))
    · exact absurd hd (not_lt.mpr h1)

/-- `operator==` decides component-wise equality. -/
lemma eqOp_eq_true_iff (a b : UniversalTime) : eqOp a b = true ↔ a = b := by
  rcases a with ⟨da, sa, na⟩
  rcases b with ⟨db, sb, nb⟩
  simp [eqOp, UniversalTime.mk.injEq, and_assoc]

lemma eqOp_self (a : UniversalTime) : eqOp a a = true := by
  simp [eqOp]

lemma lt_self_eq_false (a : UniversalTime) : lt a a = false := by
  simp [lt, le_refl]

/-- Lexicographic trichotomy on component triples. -/
lemma ltLex_trichotomy (a b : UniversalTime) : LtLex a b ∨ a = b ∨ LtLex b a := by
  rcases a with ⟨da, sa, na⟩
  rcases b with ⟨db, sb, nb⟩
  unfold LtLex
  dsimp only
  rcases lt_trichotomy da db with hd | hd | hd
  · exact Or.inl (Or.inl hd)
  · rcases lt_trichotomy sa sb with hs | hs | hs
    · exact Or.inl (Or.inr (Or.inl ⟨hd, hs⟩))
    · rcases lt_trichotomy na nb with hn | hn | hn
      · exact Or.inl (Or.inr (Or.inr ⟨hd, hs, hn⟩))
      · exact Or.inr (Or.inl (by rw [hd, hs, hn]))
      · exact Or.inr (Or.inr (Or.inr (Or.inr ⟨hd.symm, hs.symm, hn⟩)))
    · exact Or.inr (Or.inr (Or.inr (Or.inl ⟨hd.symm, hs⟩)))
  · exact Or.inr (Or.inr (Or.inl hd))

/-- The comparison outcome is exactly one of `<`, `==`, `>`. -/
lemma comparison_trichotomy (a b : UniversalTime) :
    (lt a b = true ∧ eqOp a b = false ∧ gt a b = false) ∨
      (lt a b = false ∧ eqOp a b = true ∧ gt a b = false) ∨
        (lt a b = false ∧ eqOp a b = false ∧ gt a b = true) := by
  cases hl : lt a b <;> cases he : eqOp a b
  · exact Or.inr (Or.inr ⟨rfl, rfl, by simp [gt, le, hl, he]⟩)
  · exact Or.inr (Or.inl ⟨rfl, rfl, by simp [gt, le, hl, he]⟩)
  · exact Or.inl ⟨rfl, rfl, by simp [gt, le, hl, he]⟩
  · rw [eqOp_eq_true_iff] at he
    subst he
    rw [lt_self_eq_false] at hl
    exact absurd hl (by simp)

/-- Totality of `operator<=`. -/
lemma le_total_order (a b : UniversalTime) : le a b = true ∨ le b a = true := by
  rcases ltLex_trichotomy a b with h | h | h
  · exact Or.inl (by simp [le, (lt_eq_true_iff a b).mpr h])
  · subst h
    exact Or.inl (by simp [le, eqOp_self])
  · exact Or.inr (by simp [le, (lt_eq_true_iff b a).mpr h])

/-! ### Agreement of the comparison with the denoted instant, on canonical
triples -/

lemma value_scaled (t : UniversalTime) :
    value t * 1000000000 =
      1000000000 * (86400 * (t.days : Rat) + (t.seconds : Rat)) + t.nanoSeconds := by
  unfold value
  field_simp
  ring

lemma value_lt_iff_scaled (a b : UniversalTime) :
    value a < value b ↔
      1000000000 * (86400 * (a.days : Rat) + (a.seconds : Rat)) + a.nanoSeconds <
        1000000000 * (86400 * (b.days : Rat) + (b.seconds : Rat)) + b.nanoSeconds := by
  rw [← value_scaled, ← value_scaled]
  exact (mul_lt_mul_right (by norm_num)).symm

lemma canonical_bounds_q (t : UniversalTime) (hc : Canonical t) :
    (0 : Rat) ≤ (t.seconds : Rat) ∧ ((t.seconds : Rat)) ≤ 86399 ∧
      (0 : Rat) ≤ t.nanoSeconds ∧ t.nanoSeconds < 1000000000 := by
  obtain ⟨h1, h2, h3, h4⟩ := hc
  have h2' : t.seconds ≤ 86399 := by omega
  exact ⟨by exact_mod_cast h1, by exact_mod_cast h2', h3, h4⟩

/-- On canonical triples the lexicographic order implies the value order. -/
lemma value_lt_of_ltLex (a b : UniversalTime) (hca : Canonical a)
    (hcb : Canonical b) (h : LtLex a b) : value a < value b := by
  rw [value_lt_iff_scaled]
  obtain ⟨ha1, ha2, ha3, ha4⟩ := canonical_bounds_q a hca
  obtain ⟨hb1, hb2, hb3, hb4⟩ := canonical_bounds_q b hcb
  rcases h with hd | ⟨hd, hs⟩ | ⟨hd, hs, hn⟩
  · have hdq : (a.days : Rat) + 1 ≤ (b.days : Rat) := by
      have : a.days + 1 ≤ b.days := hd
      exact_mod_cast this
    nlinarith
  · have hdq : (a.days : Rat) = (b.days : Rat) := by exact_mod_cast hd
    have hsq : (a.seconds : Rat) + 1 ≤ (b.seconds : Rat) := by
      have : a.seconds + 1 ≤ b.seconds := hs
      exact_mod_cast this
    nlinarith
  · have hdq : (a.days : Rat) = (b.days : Rat) := by exact_mod_cast hd
    have hsq : (a.seconds : Rat) = (b.seconds : Rat) := by exact_mod_cast hs
    nlinarith


/-- Canonical triples with the same denoted instant are equal. -/
lemma canonical_value_inj (a b : UniversalTime) (hca : Canonical a)
    (hcb : Canonical b) (h : value a = value b) : a = b := by
  rcases ltLex_trichotomy a b with hlt | heq | hlt
  · exact absurd h (ne_of_lt (value_lt_of_ltLex a b hca hcb hlt))
  · exact heq
  · exact absurd h.symm (ne_of_lt (value_lt_of_ltLex b a hcb hca hlt))

/-- On canonical triples `operator<` agrees with the value order. -/
lemma lt_iff_value_lt (a b : UniversalTime) (hca : Canonical a)
    (hcb : Canonical b) : lt a b = true ↔ value a < value b := by
  rw [lt_eq_true_iff]
  constructor
  · exact value_lt_of_ltLex a b hca hcb
  · intro hv
    rcases ltLex_trichotomy a b with hlt | heq | hlt
    · exact hlt
    · subst heq
      exact absurd hv (lt_irrefl _)
    · exact absurd (value_lt_of_ltLex b a hcb hca hlt) (not_lt.mpr hv.le)

/-- On canonical triples `operator==` agrees with value equality. -/
lemma eqOp_iff_value_eq (a b : UniversalTime) (hca : Canonical a)
    (hcb : Canonical b) : eqOp a b = true ↔ value a = value b := by
  rw [eqOp_eq_true_iff]
  constructor
  · rintro rfl
    rfl
  · exact canonical_value_inj a b hca hcb

/-! ### Arithmetic helper lemmas -/

lemma value_add_components (a b : UniversalTime) :
    value ⟨a.days + b.days, a.seconds + b.seconds, a.nanoSeconds + b.nanoSeconds⟩ =
      value a + value b := by
  unfold value
  push_cast
  ring

lemma value_sub_components (a b : UniversalTime) :
    value ⟨a.days - b.days, a.seconds - b.seconds, a.nanoSeconds - b.nanoSeconds⟩ =
      value a - value b := by
  unfold value
  push_cast
  ring

/-- `operator+=` preserves the sum of the denoted instants. -/
lemma value_addAssign (a b : UniversalTime) :
    value (addAssign a b) = value a + value b := by
  unfold addAssign
  rw [value_normalise, value_add_components]

/-- `operator-=` preserves the difference of the denoted instants. -/
lemma value_subAssign (a b : UniversalTime) :
    value (subAssign a b) = value a - value b := by
  unfold subAssign
  rw [value_normalise, value_sub_components]

lemma make_zero : make 0 0 0 = ⟨0, 0, 0⟩ := by
  refine normalise_of_canonical ⟨0, 0, 0⟩ (by norm_num) ?_
  unfold Canonical
  norm_num

lemma neOp_eq_true_iff (a b : UniversalTime) : neOp a b = true ↔ a ≠ b := by
  have h : neOp a b = true ↔ ¬ (eqOp a b = true) := by simp [neOp]
  rw [h, eqOp_eq_true_iff]

/-! ### Concrete evaluations of the constructor and operators -/

lemma eval_make_neg1 : make 0 0 (-1) = ⟨0, 0, -1⟩ := by
  norm_num [make, Normalise, TimeOrder, phasePos, phaseNeg, carry, truncQ,
    UniversalTime.mk.injEq, ceil_eq_neg_floor]

lemma eval_make_a : make 0 0 500000000 = ⟨0, 0, 500000000⟩ := by
  norm_num [make, Normalise, TimeOrder, phasePos, phaseNeg, carry, truncQ,
    UniversalTime.mk.injEq, ceil_eq_neg_floor]

lemma eval_make_b : make 0 2 (-1500000000) = ⟨0, 1, -500000000⟩ := by
  norm_num [make, Normalise, TimeOrder, phasePos, phaseNeg, carry, truncQ,
    UniversalTime.mk.injEq, ceil_eq_neg_floor]

lemma eval_make_c : make 0 3 (-2500000000) = ⟨0, 1, -500000000⟩ := by
  norm_num [make, Normalise, TimeOrder, phasePos, phaseNeg, carry, truncQ,
    UniversalTime.mk.injEq, ceil_eq_neg_floor]

lemma eval_sub_borrow : sub (make 0 0 0) (make 0 0 1) = ⟨0, 0, -1⟩ := by
  norm_num [make, sub, subAssign, Normalise, TimeOrder, phasePos, phaseNeg,
    carry, truncQ, UniversalTime.mk.injEq, ceil_eq_neg_floor]

lemma eval_normalise_retest : Normalise ⟨1, -100000, -500000000⟩ = ⟨0, -13600, -500000000⟩ := by
  norm_num [Normalise, TimeOrder, phasePos, phaseNeg, carry, truncQ,
    UniversalTime.mk.injEq, ceil_eq_neg_floor]

lemma eval_specNormalise : specNormalise ⟨1, -100000, -500000000⟩ = ⟨0, -13601, 500000000⟩ := by
  norm_num [specNormalise, lexNonNeg, specBorrow, specFold, specCarry, truncQ,
    UniversalTime.mk.injEq, ceil_eq_neg_floor]

lemma eval_sub_fuzz : sub (make 0 62310 1547700) (make 0 62309 993522000) = ⟨0, 0, 8025700⟩ := by
  norm_num [make, sub, subAssign, Normalise, TimeOrder, phasePos, phaseNeg,
    carry, truncQ, UniversalTime.mk.injEq, ceil_eq_neg_floor]

lemma eval_normalise_box : Normalise ⟨5, -90000, -500000000⟩ = ⟨4, -3601, 500000000⟩ := by
  norm_num [Normalise, TimeOrder, phasePos, phaseNeg, carry, truncQ,
    UniversalTime.mk.injEq, ceil_eq_neg_floor]

lemma eval_normalise_ab : Normalise ⟨0, 1, -500000000⟩ = ⟨0, 0, 500000000⟩ := by
  norm_num [Normalise, TimeOrder, phasePos, phaseNeg, carry, truncQ,
    UniversalTime.mk.injEq, ceil_eq_neg_floor]

/-! ## Claim theorems -/

/-- C1, counterexample: constructing a Timestamp from `(0, 0, -1)` leaves
`nanoSeconds = -1`, violating the claimed invariant `0 ≤ nanoseconds`; the
construction does not always yield components in the canonical ranges. -/
theorem C1_counterexample :
    make 0 0 (-1) = ⟨0, 0, -1⟩ ∧ ¬ Canonical (make 0 0 (-1)) := by
  refine ⟨eval_make_neg1, ?_⟩
  rw [eval_make_neg1]
  unfold Canonical
  norm_num

/-- C1, amended: construction always preserves the denoted instant
`d*86400 + s + n*1e-9` exactly, and when all three raw components are
non-negative the result satisfies `0 ≤ seconds < 86400` and
`0 ≤ nanoseconds < 1e9`. -/
theorem C1_amended (d s : Int) (n : Rat) :
    value (make d s n) = value ⟨d, s, n⟩ ∧
      (0 ≤ d → 0 ≤ s → 0 ≤ n → Canonical (make d s n)) := by
  constructor
  · exact value_normalise ⟨d, s, n⟩
  · intro hd hs hn
    exact (normalise_canonical_of_nonneg ⟨d, s, n⟩ hd hs hn).1

/-- Witness for C1_amended at the concrete input `(2, 100000, 2500000000)`. -/
theorem C1_witness :
    (0 : Int) ≤ 2 ∧ (0 : Int) ≤ 100000 ∧ (0 : Rat) ≤ 2500000000 ∧
      value (make 2 100000 2500000000) = value ⟨2, 100000, 2500000000⟩ ∧
        Canonical (make 2 100000 2500000000) :=
  ⟨by norm_num, by norm_num, by norm_num,
    (C1_amended 2 100000 2500000000).1,
    (C1_amended 2 100000 2500000000).2 (by norm_num) (by norm_num) (by norm_num)⟩

/-- C2, counterexample: `Timestamp(0,0,0) - Timestamp(0,0,1.0)` does NOT
yield `days = -1, seconds = 86399, nanoseconds = 999999999`. -/
theorem C2_counterexample :
    sub (make 0 0 0) (make 0 0 1) ≠ ⟨-1, 86399, 999999999⟩ := by
  rw [eval_sub_borrow]
  simp [UniversalTime.mk.injEq]

/-- C2, amended: `Timestamp(0,0,0) - Timestamp(0,0,1.0)` yields
`days = 0, seconds = 0, nanoSeconds = -1.0`: the negative instant is kept as
an all-non-positive triple (so still no mixed signs), and no day borrow
occurs. -/
theorem C2_amended : sub (make 0 0 0) (make 0 0 1) = ⟨0, 0, -1⟩ :=
  eval_sub_borrow

/-- C3, counterexample: on input `(1, -100000, -0.5e9)` (inside the fuzz
ranges of main.C) the code's `Normalise` differs from the spec's four-step
algorithm with a single sign-orientation test: the code gives
`(0, -13600, -0.5e9)` whereas the single-test algorithm gives
`(0, -13601, +0.5e9)`. -/
theorem C3_counterexample :
    Normalise ⟨1, -100000, -500000000⟩ ≠ specNormalise ⟨1, -100000, -500000000⟩ := by
  rw [eval_normalise_retest, eval_specNormalise]
  simp [UniversalTime.mk.injEq]

/-- C3, amended: `Normalise` equals the spec's four-step algorithm amended so
that the lexicographic sign test is re-evaluated after the non-negative
borrow phase, with the fold phase running whenever the mutated triple is
then negative — the direction is not fixed by a single test. -/
theorem C3_amended (t : UniversalTime) : Normalise t = specNormaliseRetest t :=
  normalise_eq_specNormaliseRetest t

/-- C4, counterexample: the two constructed Timestamps
`Timestamp(0,0,5e8)` and `Timestamp(0,2,-1.5e9)` denote the same real
instant (0.5 s), yet `a < b` holds and `a == b` fails: the order does not
agree with comparing the denoted instants. -/
theorem C4_counterexample :
    value (make 0 0 500000000) = value (make 0 2 (-1500000000)) ∧
      lt (make 0 0 500000000) (make 0 2 (-1500000000)) = true ∧
        eqOp (make 0 0 500000000) (make 0 2 (-1500000000)) = false := by
  rw [eval_make_a, eval_make_b]
  refine ⟨?_, ?_, ?_⟩
  · unfold value
    norm_num
  · norm_num [lt]
  · norm_num [eqOp]

/-- C4, amended: for all Timestamps exactly one of `<`, `==`, `>` holds,
`<=` is total, `<` decides the lexicographic tier-by-tier order (days,
seconds, nanoseconds), `==`/`!=` hold exactly on component-wise
equality/inequality; the agreement with the denoted real instants holds on
canonical triples (it fails in general, see the counterexample). -/
theorem C4_amended (a b : UniversalTime) :
    ((lt a b = true ∧ eqOp a b = false ∧ gt a b = false) ∨
      (lt a b = false ∧ eqOp a b = true ∧ gt a b = false) ∨
        (lt a b = false ∧ eqOp a b = false ∧ gt a b = true)) ∧
    (le a b = true ∨ le b a = true) ∧
    (lt a b = true ↔ LtLex a b) ∧
    (eqOp a b = true ↔ a = b) ∧
    (neOp a b = true ↔ a ≠ b) ∧
    (Canonical a → Canonical b →
      ((lt a b = true ↔ value a < value b) ∧
        (eqOp a b = true ↔ value a = value b))) :=
  ⟨comparison_trichotomy a b, le_total_order a b, lt_eq_true_iff a b,
    eqOp_eq_true_iff a b, neOp_eq_true_iff a b,
    fun hca hcb => ⟨lt_iff_value_lt a b hca hcb, eqOp_iff_value_eq a b hca hcb⟩⟩

/-- Witness for C4_amended at the canonical pair `(0,0,0)` and `(1,2,3)`. -/
theorem C4_witness :
    Canonical (⟨0, 0, 0⟩ : UniversalTime) ∧ Canonical (⟨1, 2, 3⟩ : UniversalTime) ∧
      ((lt ⟨0, 0, 0⟩ ⟨1, 2, 3⟩ = true ↔ value ⟨0, 0, 0⟩ < value ⟨1, 2, 3⟩) ∧
        (eqOp ⟨0, 0, 0⟩ ⟨1, 2, 3⟩ = true ↔ value ⟨0, 0, 0⟩ = value ⟨1, 2, 3⟩)) :=
  ⟨by unfold Canonical; norm_num, by unfold Canonical; norm_num,
    (C4_amended ⟨0, 0, 0⟩ ⟨1, 2, 3⟩).2.2.2.2.2
      (by unfold Canonical; norm_num) (by unfold Canonical; norm_num)⟩

/-- C5, counterexample: the subtraction result's nanoseconds is `8025700`,
which is not approximately `67178000` (it is off by more than `10^7`). -/
theorem C5_counterexample :
    (sub (make 0 62310 1547700) (make 0 62309 993522000)).nanoSeconds = 8025700 ∧
      ¬ |(sub (make 0 62310 1547700) (make 0 62309 993522000)).nanoSeconds
          - 67178000| < 10000000 := by
  rw [eval_sub_fuzz]
  norm_num [abs_sub_lt_iff]

/-- C5, amended: `Timestamp(0, 62310, 1.5477e6) - Timestamp(0, 62309,
9.93522e8)` normalizes to `days = 0, seconds = 0` and `nanoseconds =
1.5477e6 - 9.93522e8 + 1e9 = 8025700.0` (not ≈ 67178000.0). -/
theorem C5_amended :
    sub (make 0 62310 1547700) (make 0 62309 993522000) = ⟨0, 0, 8025700⟩ ∧
      (8025700 : Rat) = 1547700 - 993522000 + 1000000000 :=
  ⟨eval_sub_fuzz, by norm_num⟩

/-- C6, counterexample: with `a = Timestamp(0, 2, -1.5e9)` (whose stored
components are `(0, 1, -5e8)`) and `b = Timestamp(0,0,0)`, the round trip
`(a + b) - b` yields components `(0, 0, 5e8)`, so `(a + b) - b == a` is
false. -/
theorem C6_counterexample :
    eqOp (sub (add (make 0 2 (-1500000000)) (make 0 0 0)) (make 0 0 0))
      (make 0 2 (-1500000000)) = false := by
  rw [eval_make_b, make_zero]
  have h1 : add (⟨0, 1, -500000000⟩ : UniversalTime) ⟨0, 0, 0⟩ = ⟨0, 0, 500000000⟩ := by
    unfold add addAssign
    norm_num [eval_normalise_ab]
  rw [h1]
  have h2 : sub (⟨0, 0, 500000000⟩ : UniversalTime) ⟨0, 0, 0⟩ = ⟨0, 0, 500000000⟩ := by
    unfold sub subAssign
    norm_num [Normalise, TimeOrder, phasePos, phaseNeg, carry, truncQ,
      UniversalTime.mk.injEq, ceil_eq_neg_floor]
  rw [h2]
  norm_num [eqOp]

/-- C6, amended: for every pair of component triples the denoted instant of
`(a + b) - b` equals the denoted instant of `a` exactly (the component-wise
`==` can fail, see the counterexample). -/
theorem C6_amended (a b : UniversalTime) :
    value (sub (add a b) b) = value a := by
  unfold add sub
  rw [value_subAssign, value_addAssign]
  ring

/-- C7, counterexample: for `x = Timestamp(0, 2, -1.5e9)` (components
`(0, 1, -5e8)`), `Timestamp(0,0,0) + x` has components `(0, 0, 5e8)`, so
`Timestamp(0,0,0) + x == x` is false. -/
theorem C7_counterexample :
    eqOp (add (make 0 0 0) (make 0 2 (-1500000000))) (make 0 2 (-1500000000)) = false := by
  rw [make_zero, eval_make_b]
  have h1 : add (⟨0, 0, 0⟩ : UniversalTime) ⟨0, 1, -500000000⟩ = ⟨0, 0, 500000000⟩ := by
    unfold add addAssign
    norm_num [eval_normalise_ab]
  rw [h1]
  norm_num [eqOp]

/-- C7, amended: `Timestamp(0,0,0) + x` always denotes the same instant as
`x`, and equals `x` component-wise (hence `==`) whenever `x` is canonical
with non-negative days. -/
theorem C7_amended (x : UniversalTime) :
    value (add (make 0 0 0) x) = value x ∧
      (0 ≤ x.days → Canonical x → eqOp (add (make 0 0 0) x) x = true) := by
  constructor
  · unfold add
    rw [value_addAssign, make_zero]
    unfold value
    norm_num
  · intro hd hc
    unfold add addAssign
    rw [make_zero]
    simp only [zero_add]
    have hx : (⟨x.days, x.seconds, x.nanoSeconds⟩ : UniversalTime) = x := rfl
    rw [hx, normalise_of_canonical x hd hc]
    exact eqOp_self x

/-- Witness for C7_amended at the canonical `x = (3, 5, 7)`. -/
theorem C7_witness :
    (0 : Int) ≤ (⟨3, 5, 7⟩ : UniversalTime).days ∧
      Canonical (⟨3, 5, 7⟩ : UniversalTime) ∧
        value (add (make 0 0 0) ⟨3, 5, 7⟩) = value ⟨3, 5, 7⟩ ∧
          eqOp (add (make 0 0 0) ⟨3, 5, 7⟩) ⟨3, 5, 7⟩ = true :=
  ⟨by norm_num, by unfold Canonical; norm_num,
    (C7_amended ⟨3, 5, 7⟩).1,
    (C7_amended ⟨3, 5, 7⟩).2 (by norm_num) (by unfold Canonical; norm_num)⟩

/-- C8, counterexample: the raw triples `(0, 0, 5e8)` and `(0, 3, -2.5e9)`
denote the same instant (0.5 s), but the Timestamps constructed from them
have components `(0, 0, 5e8)` and `(0, 1, -5e8)` and compare unequal. -/
theorem C8_counterexample :
    value (⟨0, 0, 500000000⟩ : UniversalTime) = value ⟨0, 3, -2500000000⟩ ∧
      eqOp (make 0 0 500000000) (make 0 3 (-2500000000)) = false := by
  constructor
  · unfold value
    norm_num
  · rw [eval_make_a, eval_make_c]
    norm_num [eqOp]

/-- C8, amended: two raw triples that denote the same instant yield
`==`-equal Timestamps provided both raw triples are component-wise
non-negative (in general it fails, see the counterexample). -/
theorem C8_amended (d1 s1 : Int) (n1 : Rat) (d2 s2 : Int) (n2 : Rat)
    (hd1 : 0 ≤ d1) (hs1 : 0 ≤ s1) (hn1 : 0 ≤ n1)
    (hd2 : 0 ≤ d2) (hs2 : 0 ≤ s2) (hn2 : 0 ≤ n2)
    (h : value ⟨d1, s1, n1⟩ = value ⟨d2, s2, n2⟩) :
    eqOp (make d1 s1 n1) (make d2 s2 n2) = true := by
  have hc1 := normalise_canonical_of_nonneg ⟨d1, s1, n1⟩ hd1 hs1 hn1
  have hc2 := normalise_canonical_of_nonneg ⟨d2, s2, n2⟩ hd2 hs2 hn2
  have hv : value (make d1 s1 n1) = value (make d2 s2 n2) := by
    unfold make
    rw [value_normalise, value_normalise]
    exact h
  have heq : make d1 s1 n1 = make d2 s2 n2 :=
    canonical_value_inj _ _ hc1.1 hc2.1 hv
  rw [heq]
  exact eqOp_self _

/-- Witness for C8_amended: the raw triples `(0, 86400, 0)` and `(1, 0, 0)`
both denote 86400 s and construct `==`-equal Timestamps. -/
theorem C8_witness :
    (0 : Int) ≤ 0 ∧ (0 : Int) ≤ 86400 ∧ (0 : Rat) ≤ 0 ∧
      (0 : Int) ≤ 1 ∧ (0 : Int) ≤ 0 ∧ (0 : Rat) ≤ 0 ∧
        value (⟨0, 86400, 0⟩ : UniversalTime) = value ⟨1, 0, 0⟩ ∧
          eqOp (make 0 86400 0) (make 1 0 0) = true :=
  ⟨by norm_num, by norm_num, by norm_num, by norm_num, by norm_num, by norm_num,
    by unfold value; norm_num,
    C8_amended 0 86400 0 1 0 0 (by norm_num) (by norm_num) (by norm_num)
      (by norm_num) (by norm_num) (by norm_num) (by unfold value; norm_num)⟩

/-- C9, counterexample: the input `(5, -90000, -5e8)` lies inside the
claimed ranges, yet normalization yields `(4, -3601, 5e8)`, which is not a
canonical triple (`seconds < 0`). -/
theorem C9_counterexample :
    ((-100 : Int) ≤ 5 ∧ (5 : Int) ≤ 100 ∧ (-100000 : Int) ≤ -90000 ∧
      (-90000 : Int) ≤ 100000 ∧ (-1000000000 : Rat) ≤ -500000000 ∧
        (-500000000 : Rat) ≤ 1000000000) ∧
      Normalise ⟨5, -90000, -500000000⟩ = ⟨4, -3601, 500000000⟩ ∧
        ¬ Canonical (Normalise ⟨5, -90000, -500000000⟩) := by
  refine ⟨by norm_num, eval_normalise_box, ?_⟩
  rw [eval_normalise_box]
  unfold Canonical
  norm_num

/-- C9, amended: on the claimed input box (indeed on every input)
normalization is a total straight-line function that preserves the denoted
instant and bounds the magnitudes: `|seconds| < 86400` and
`|nanoseconds| < 1e9`; the non-negative canonical ranges are not guaranteed
(see the counterexample). -/
theorem C9_amended (d s : Int) (n : Rat)
    (hd1 : -100 ≤ d) (hd2 : d ≤ 100) (hs1 : -100000 ≤ s) (hs2 : s ≤ 100000)
    (hn1 : -1000000000 ≤ n) (hn2 : n ≤ 1000000000) :
    value (Normalise ⟨d, s, n⟩) = value ⟨d, s, n⟩ ∧
      -86400 < (Normalise ⟨d, s, n⟩).seconds ∧
        (Normalise ⟨d, s, n⟩).seconds < 86400 ∧
          -1000000000 < (Normalise ⟨d, s, n⟩).nanoSeconds ∧
            (Normalise ⟨d, s, n⟩).nanoSeconds < 1000000000 :=
  ⟨value_normalise _, normalise_bounds _⟩

/-- Witness for C9_amended at the corner input `(100, 100000, 1e9)`. -/
theorem C9_witness :
    ((-100 : Int) ≤ 100 ∧ (100 : Int) ≤ 100 ∧ (-100000 : Int) ≤ 100000 ∧
      (100000 : Int) ≤ 100000 ∧ (-1000000000 : Rat) ≤ 1000000000 ∧
        (1000000000 : Rat) ≤ 1000000000) ∧
      (value (Normalise ⟨100, 100000, 1000000000⟩) = value ⟨100, 100000, 1000000000⟩ ∧
        -86400 < (Normalise ⟨100, 100000, 1000000000⟩).seconds ∧
          (Normalise ⟨100, 100000, 1000000000⟩).seconds < 86400 ∧
            -1000000000 < (Normalise ⟨100, 100000, 1000000000⟩).nanoSeconds ∧
              (Normalise ⟨100, 100000, 1000000000⟩).nanoSeconds < 1000000000) :=
  ⟨⟨by norm_num, by norm_num, by norm_num, by norm_num, by norm_num, by norm_num⟩,
    C9_amended 100 100000 1000000000 (by norm_num) (by norm_num) (by norm_num)
      (by norm_num) (by norm_num) (by norm_num)⟩

/-- C10: the binary subtraction (spelled `operator--`) and `operator+`
mutate only the temporary copy of `*this`: after evaluation both operands
are unchanged, and the returned value is the normalized sum/difference. -/
theorem C10_operands_unchanged (a b : UniversalTime) :
    (opMinusMinus a b).2.1 = a ∧ (opMinusMinus a b).2.2 = b ∧
      (opMinusMinus a b).1 = subAssign a b ∧
        (opPlus a b).2.1 = a ∧ (opPlus a b).2.2 = b ∧
          (opPlus a b).1 = addAssign a b :=
  ⟨rfl, rfl, rfl, rfl, rfl, rfl⟩

end UT
